import Mathlib

/-!
Formal model of the THERMOGNOSIS-X epistemic scoring and validation engine.

Each section embeds one Python module of the repository as Lean definitions
and proves the specification claims about it:

* `Scoring`    — src/python/thermognosis/pipeline/scoring.py
* `Validation` — src/python/thermognosis/pipeline/validation.py
* `Gap`        — src/python/tests/test_gap.py (acquisition-gradient formula)
* `Grouping`   — src/python/thermognosis/pipeline/ranking.py and
                 gap_detection.py (single-pass contiguous grouping)
* `Hashing`    — src/python/thermognosis/utils/hashing.py

Floating-point values are idealized: where NaN matters (validation,
quality-vector components) a float is `Option ℚ` or `Option ℝ` with `none`
playing the role of NaN; where transcendental functions occur (exp, log,
sqrt, rpow) floats are real numbers.  Rounding error is not modelled; none
of the claims below depend on it.
-/

namespace Scoring

/-- Error codes of `QualityScoreError` in scoring.py (QUAL-SCORE-01 .. 05). -/
inductive QualityScoreError where
  | nanComponent
  | outOfRange
  | weightCount
  | weightSum
  | entropyInstability
  | negativeVariance
deriving DecidableEq

/-- Error codes of `CredibilityScoreError` (QUAL-CRED-01/03/05); `zeroDivision`
models the Python `ZeroDivisionError` raised by `n / (n + n_0)` when the
denominator is zero, which scoring.py does not catch. -/
inductive CredibilityScoreError where
  | sourceWeight
  | uncertaintyWeight
  | negativeSampleSize
  | zeroDivision
deriving DecidableEq

/-- The frozen dataclass `QualityVector` (scoring.py lines 59-86).  The Python
constructor stores the six floats without any validation; a component that is
NaN is modelled as `none`.  Validation happens only in `to_numpy`. -/
structure QualityVector where
  q_comp : Option ℝ
  q_cred : Option ℝ
  q_phys : Option ℝ
  q_err : Option ℝ
  q_smooth : Option ℝ
  q_meta : Option ℝ

/-- The strictly ordered component array built inside `to_numpy`. -/
def QualityVector.components (q : QualityVector) : List (Option ℝ) :=
  [q.q_comp, q.q_cred, q.q_phys, q.q_err, q.q_smooth, q.q_meta]

open Classical in
/-- `QualityVector.to_numpy`: raises QUAL-SCORE-01 on any NaN component, then
QUAL-SCORE-02 on any component outside [0, 1], else returns the six values. -/
noncomputable def QualityVector.to_numpy (q : QualityVector) :
    Except QualityScoreError (List ℝ) :=
  if q.components.any (fun c => c.isNone) then .error .nanComponent
  else if ∃ v ∈ q.components.map (fun c => c.getD 0), v < 0 ∨ 1 < v then
    .error .outOfRange
  else .ok (q.components.map (fun c => c.getD 0))

/-- `QualityScorer.DEFAULT_WEIGHTS = [0.25, 0.25, 0.20, 0.15, 0.10, 0.05]`. -/
noncomputable def DEFAULT_WEIGHTS : List ℝ := [1/4, 1/4, 1/5, 3/20, 1/10, 1/20]

open Classical in
/-- `QualityScorer.__init__`: exactly 6 weights, and
`np.isclose(sum, 1.0, atol=1e-6)` which with the default `rtol = 1e-5` means
|sum - 1| less or equal to 1e-6 + 1e-5 * |1|.  A validated scorer is just its
weight list. -/
noncomputable def mkQualityScorer (w : List ℝ) : Except QualityScoreError (List ℝ) :=
  if w.length ≠ 6 then .error .weightCount
  else if ¬ (|w.sum - 1| ≤ 1/1000000 + 1/100000 * |(1:ℝ)|) then .error .weightSum
  else .ok w

/-- `np.dot` on equal-length 1-D arrays. -/
def dot (w q : List ℝ) : ℝ := (List.zipWith (fun a b => a * b) w q).sum

/-- `np.clip(x, lo, hi)`, i.e. `min(max(x, lo), hi)`. -/
def npClip (x lo hi : ℝ) : ℝ := min (max x lo) hi

/-- `QualityScorer.score_linear` (scoring.py lines 201-212): the gate check
precedes `to_numpy`, so `gate = False` returns 0.0 without any validation. -/
noncomputable def score_linear (w : List ℝ) (gate : Bool) (q : QualityVector) :
    Except QualityScoreError ℝ :=
  if gate = false then .ok 0
  else q.to_numpy.map (fun v => dot w v)

/-- `QualityScorer.score_multiplicative` (lines 214-229): product of
`np.power(q_i, w_i)`, i.e. real rpow, so 0 ^ w = 0 for w > 0 but 0 ^ 0 = 1. -/
noncomputable def score_multiplicative (w : List ℝ) (gate : Bool) (q : QualityVector) :
    Except QualityScoreError ℝ :=
  if gate = false then .ok 0
  else q.to_numpy.map (fun v => (List.zipWith (fun a b => a ^ b) v w).prod)

/-- `QualityScorer.score_entropy_regularized` (lines 231-256).  The entropy
terms use the guarded form of `np.where(q > 0, q * log q, 0)`; the mid-stream
NaN check (QUAL-SCORE-04) is unreachable in the real-number idealization
because every guarded term is a well-defined real. -/
noncomputable def score_entropy_regularized (w : List ℝ) (gate : Bool)
    (q : QualityVector) (lambda_reg : ℝ) : Except QualityScoreError ℝ :=
  if gate = false then .ok 0
  else q.to_numpy.map (fun v =>
    let s_base := dot w v
    let entropy := -(v.map (fun x => if 0 < x then x * Real.log x else 0)).sum
    npClip (s_base - lambda_reg * entropy) 0 1)

open Classical in
/-- `QualityScorer.score_risk_adjusted` (lines 258-281): gate check, then both
vectors validated, then `E[S] - gamma * sqrt(Var S)` with the defensive
negative-variance error, and the final `np.clip(.., 0.0, 1.0)`. -/
noncomputable def score_risk_adjusted (w : List ℝ) (gate : Bool)
    (q_mu q_sigma : QualityVector) (gamma : ℝ) : Except QualityScoreError ℝ :=
  if gate = false then .ok 0
  else do
    let mu ← q_mu.to_numpy
    let sigma ← q_sigma.to_numpy
    let expected_s := dot w mu
    let var_s := dot (w.map (fun x => x ^ 2)) (sigma.map (fun x => x ^ 2))
    if var_s < 0 then .error .negativeVariance
    else .ok (npClip (expected_s - gamma * Real.sqrt var_s) 0 1)

open Classical in
/-- `CredibilityScorer.calculate_credibility` (scoring.py lines 96-161). -/
noncomputable def calculate_credibility (w_source : ℝ) (n_rep : ℤ) (w_unc : ℝ)
    (delta_phys : ℝ) (n : ℤ) (e_cv : ℝ) (t_current t_pub : ℝ)
    (alpha n_0 beta lambda_time : ℝ) : Except CredibilityScoreError ℝ :=
  if ¬ (0 ≤ w_source ∧ w_source ≤ 1) then .error .sourceWeight
  else if ¬ (w_unc = 0 ∨ w_unc = 1/2 ∨ w_unc = 1) then .error .uncertaintyWeight
  else if n < 0 then .error .negativeSampleSize
  else if ((n : ℝ) + n_0) = 0 then .error .zeroDivision
  else
    let w_rep : ℝ := if 1 ≤ n_rep then 1 - Real.exp (-(n_rep : ℝ)) else 0
    let w_phys : ℝ := if 0 < delta_phys then Real.exp (-alpha * delta_phys) else 1
    let w_stat : ℝ := (n : ℝ) / ((n : ℝ) + n_0)
    let w_model : ℝ := Real.exp (-beta * e_cv)
    let w_time : ℝ := Real.exp (-lambda_time * max 0 (t_current - t_pub))
    .ok (npClip (w_source * w_rep * w_unc * w_phys * w_stat * w_model * w_time) 0 1)

/-- C2: all four scoring strategies short-circuit on `gate = False` and return
exactly 0.0, before any component validation, for every weight configuration,
every quality vector (valid or not), and every regularization parameter. -/
theorem gate_false_forces_zero (w : List ℝ) (q qs : QualityVector)
    (lam gam : ℝ) :
    score_linear w false q = .ok 0 ∧
    score_multiplicative w false q = .ok 0 ∧
    score_entropy_regularized w false q lam = .ok 0 ∧
    score_risk_adjusted w false q qs gam = .ok 0 := by
  refine ⟨?_, ?_, ?_, ?_⟩ <;>
    simp [score_linear, score_multiplicative, score_entropy_regularized,
      score_risk_adjusted]

/-- A quality vector is invalid when some component is NaN or out of [0, 1]. -/
def QualityVector.invalid (q : QualityVector) : Prop :=
  ∃ c ∈ q.components, c = none ∨ ∃ v, c = some v ∧ (v < 0 ∨ 1 < v)

lemma to_numpy_invalid (q : QualityVector) (h : q.invalid) :
    ∃ e, q.to_numpy = .error e := by
  unfold QualityVector.to_numpy
  by_cases h1 : q.components.any (fun c => c.isNone)
  · exact ⟨.nanComponent, by rw [if_pos h1]⟩
  · obtain ⟨c, hc, hbad⟩ := h
    rcases hbad with rfl | ⟨v, rfl, hv⟩
    · refine absurd h1 (not_not.mpr ?_)
      exact List.any_eq_true.mpr ⟨none, hc, rfl⟩
    · have h2 : ∃ v ∈ q.components.map (fun c => c.getD 0), v < 0 ∨ 1 < v :=
        ⟨v, List.mem_map.mpr ⟨some v, hc, rfl⟩, hv⟩
      exact ⟨.outOfRange, by rw [if_neg h1, if_pos h2]⟩

lemma to_numpy_ok (q : QualityVector)
    (h1 : ¬ q.components.any (fun c => c.isNone))
    (h2 : ¬ ∃ v ∈ q.components.map (fun c => c.getD 0), v < 0 ∨ 1 < v) :
    q.to_numpy = .ok (q.components.map (fun c => c.getD 0)) := by
  unfold QualityVector.to_numpy
  rw [if_neg h1, if_neg h2]

/-- C3 counterexample: the dataclass constructor performs no validation, so a
vector with the out-of-range component 2.0 is constructed without error and
the scoring call with gate = False returns 0.0 instead of raising. -/
theorem invalid_vector_scored_without_error :
    (QualityVector.mk (some 2) (some 1) (some 1) (some 1) (some 1) (some 1)).invalid ∧
    score_linear DEFAULT_WEIGHTS false
      (QualityVector.mk (some 2) (some 1) (some 1) (some 1) (some 1) (some 1)) = .ok 0 := by
  constructor
  · exact ⟨some 2, by simp [QualityVector.components],
      Or.inr ⟨2, rfl, Or.inr (by norm_num)⟩⟩
  · simp [score_linear]

/-- C3 (amended): a NaN or out-of-range component is rejected not at
construction time but inside `to_numpy`, which every scoring strategy invokes
when (and only when) gate = True; with gate = False the scorer returns 0.0
without validating the vector. -/
theorem invalid_component_checked_at_scoring_time (w : List ℝ) (q : QualityVector)
    (lam gam : ℝ) (h : q.invalid) :
    (∃ e, score_linear w true q = .error e) ∧
    (∃ e, score_multiplicative w true q = .error e) ∧
    (∃ e, score_entropy_regularized w true q lam = .error e) ∧
    (∃ e, score_risk_adjusted w true q q gam = .error e) ∧
    score_linear w false q = .ok 0 := by
  obtain ⟨e, he⟩ := to_numpy_invalid q h
  refine ⟨⟨e, ?_⟩, ⟨e, ?_⟩, ⟨e, ?_⟩, ⟨e, ?_⟩, ?_⟩ <;>
    simp [score_linear, score_multiplicative, score_entropy_regularized,
      score_risk_adjusted, he, Except.map, Bind.bind, Except.bind]

theorem invalid_component_checked_at_scoring_time_witness :
    (∃ e, score_linear DEFAULT_WEIGHTS true
      (QualityVector.mk (some 2) (some 1) (some 1) (some 1) (some 1) (some 1)) = .error e) ∧
    (∃ e, score_multiplicative DEFAULT_WEIGHTS true
      (QualityVector.mk (some 2) (some 1) (some 1) (some 1) (some 1) (some 1)) = .error e) ∧
    (∃ e, score_entropy_regularized DEFAULT_WEIGHTS true
      (QualityVector.mk (some 2) (some 1) (some 1) (some 1) (some 1) (some 1)) 1 = .error e) ∧
    (∃ e, score_risk_adjusted DEFAULT_WEIGHTS true
      (QualityVector.mk (some 2) (some 1) (some 1) (some 1) (some 1) (some 1))
      (QualityVector.mk (some 2) (some 1) (some 1) (some 1) (some 1) (some 1)) 1 = .error e) ∧
    score_linear DEFAULT_WEIGHTS false
      (QualityVector.mk (some 2) (some 1) (some 1) (some 1) (some 1) (some 1)) = .ok 0 :=
  invalid_component_checked_at_scoring_time DEFAULT_WEIGHTS _ 1 1
    ⟨some 2, by simp [QualityVector.components], Or.inr ⟨2, rfl, Or.inr (by norm_num)⟩⟩

lemma dot_squares_nonneg (a b : List ℝ) :
    0 ≤ dot (a.map fun x => x ^ 2) (b.map fun x => x ^ 2) := by
  induction a generalizing b with
  | nil => simp [dot]
  | cons x xs ih =>
    cases b with
    | nil => simp [dot]
    | cons y ys =>
      have h2 := ih ys
      simp only [List.map_cons, dot, List.zipWith_cons_cons, List.sum_cons] at h2 ⊢
      have hx : (0:ℝ) ≤ x ^ 2 * y ^ 2 := by positivity
      linarith

/-- C6 (amended): with gate = True and both vectors passing validation,
`score_risk_adjusted` returns E[S] - gamma * sqrt(Var S) clipped into [0, 1]
(the defensive negative-variance branch never fires). -/
theorem risk_adjusted_formula (w : List ℝ) (q_mu q_sigma : QualityVector)
    (gamma : ℝ) (mu sigma : List ℝ)
    (hmu : q_mu.to_numpy = .ok mu) (hsig : q_sigma.to_numpy = .ok sigma) :
    score_risk_adjusted w true q_mu q_sigma gamma =
      .ok (npClip (dot w mu - gamma *
        Real.sqrt (dot (w.map fun x => x ^ 2) (sigma.map fun x => x ^ 2))) 0 1) := by
  have hvar := dot_squares_nonneg w sigma
  simp only [score_risk_adjusted, Bool.true_eq_false, if_false, hmu, hsig,
    Bind.bind, Except.bind, if_neg (not_lt.mpr hvar)]

/-- C6 counterexample: with the valid weight vector (1,0,0,0,0,0), the mean
vector all zero and the deviation vector (1,0,0,0,0,0), E[S] - gamma *
sqrt(Var S) = -1 but the function returns 0.0: the result is clipped into
[0, 1], not the raw formula value. -/
theorem risk_adjusted_not_raw_formula :
    score_risk_adjusted [1, 0, 0, 0, 0, 0] true
      (QualityVector.mk (some 0) (some 0) (some 0) (some 0) (some 0) (some 0))
      (QualityVector.mk (some 1) (some 0) (some 0) (some 0) (some 0) (some 0)) 1 = .ok 0 ∧
    dot [1, 0, 0, 0, 0, 0] [0, 0, 0, 0, 0, 0] - 1 *
      Real.sqrt (dot ([(1:ℝ), 0, 0, 0, 0, 0].map fun x => x ^ 2)
        ([(1:ℝ), 0, 0, 0, 0, 0].map fun x => x ^ 2)) = -1 ∧
    (0:ℝ) ≠ -1 := by
  have hmu : (QualityVector.mk (some 0) (some 0) (some 0) (some 0) (some 0)
      (some 0)).to_numpy = .ok [0, 0, 0, 0, 0, 0] := by
    rw [to_numpy_ok] <;> simp [QualityVector.components]
  have hsig : (QualityVector.mk (some 1) (some 0) (some 0) (some 0) (some 0)
      (some 0)).to_numpy = .ok [1, 0, 0, 0, 0, 0] := by
    rw [to_numpy_ok] <;> simp [QualityVector.components]
  have hdot : dot ([(1:ℝ), 0, 0, 0, 0, 0].map fun x => x ^ 2)
      ([(1:ℝ), 0, 0, 0, 0, 0].map fun x => x ^ 2) = 1 := by
    simp [dot]
  refine ⟨?_, ?_, by norm_num⟩
  · rw [risk_adjusted_formula [1, 0, 0, 0, 0, 0] _ _ 1 _ _ hmu hsig, hdot]
    simp [dot, npClip, Real.sqrt_one]
  · rw [hdot]
    simp [dot, Real.sqrt_one]

theorem risk_adjusted_formula_witness :
    score_risk_adjusted [1, 0, 0, 0, 0, 0] true
      (QualityVector.mk (some 0) (some 0) (some 0) (some 0) (some 0) (some 0))
      (QualityVector.mk (some 1) (some 0) (some 0) (some 0) (some 0) (some 0)) 1 =
      .ok (npClip (dot [1, 0, 0, 0, 0, 0] [0, 0, 0, 0, 0, 0] - 1 *
        Real.sqrt (dot ([(1:ℝ), 0, 0, 0, 0, 0].map fun x => x ^ 2)
          ([(1:ℝ), 0, 0, 0, 0, 0].map fun x => x ^ 2))) 0 1) :=
  risk_adjusted_formula [1, 0, 0, 0, 0, 0] _ _ 1 [0, 0, 0, 0, 0, 0] [1, 0, 0, 0, 0, 0]
    (by rw [to_numpy_ok] <;> simp [QualityVector.components])
    (by rw [to_numpy_ok] <;> simp [QualityVector.components])

/-- C7 counterexample: the weight vector (0,1,0,0,0,0) passes the scorer
configuration check (6 elements summing to 1, all non-negative), the quality
vector (0,1,1,1,1,1) is valid and has a zero component, yet the multiplicative
score with gate = True is 1.0, not 0.0: np.power gives 0 ^ 0 = 1, so a zero
component whose weight is zero does not collapse the product. -/
theorem multiplicative_zero_component_score_one :
    mkQualityScorer [0, 1, 0, 0, 0, 0] = .ok [0, 1, 0, 0, 0, 0] ∧
    (QualityVector.mk (some 0) (some 1) (some 1) (some 1) (some 1)
      (some 1)).to_numpy = .ok [0, 1, 1, 1, 1, 1] ∧
    score_multiplicative [0, 1, 0, 0, 0, 0] true
      (QualityVector.mk (some 0) (some 1) (some 1) (some 1) (some 1) (some 1)) = .ok 1 ∧
    (1:ℝ) ≠ 0 := by
  have hq : (QualityVector.mk (some 0) (some 1) (some 1) (some 1) (some 1)
      (some 1)).to_numpy = .ok [0, 1, 1, 1, 1, 1] := by
    rw [to_numpy_ok] <;> simp [QualityVector.components]
  refine ⟨?_, hq, ?_, by norm_num⟩
  · unfold mkQualityScorer
    rw [if_neg (by norm_num), if_neg (by norm_num)]
  · simp only [score_multiplicative, Bool.true_eq_false, if_false, hq, Except.map]
    simp [Real.rpow_zero, Real.one_rpow]

/-- C7 (amended): multiplicative scoring with gate = True on a validated
vector returns exactly 0.0 whenever some component is 0 and the weight
attached to that component is strictly positive (0 ^ w = 0 for w > 0). -/
theorem multiplicative_zero_collapses (w : List ℝ) (q : QualityVector)
    (v : List ℝ) (hv : q.to_numpy = .ok v) (i : ℕ)
    (hiv : i < v.length) (hiw : i < w.length)
    (hz : v.get ⟨i, hiv⟩ = 0) (hw : 0 < w.get ⟨i, hiw⟩) :
    score_multiplicative w true q = .ok 0 := by
  simp only [score_multiplicative, Bool.true_eq_false, if_false, hv, Except.map]
  have hlen : i < (List.zipWith (fun a b => a ^ b) v w).length := by
    rw [List.length_zipWith]; exact lt_min hiv hiw
  have hmem : (0:ℝ) ∈ List.zipWith (fun a b => a ^ b) v w := by
    have hget : (List.zipWith (fun a b => a ^ b) v w).get ⟨i, hlen⟩ =
        (v.get ⟨i, hiv⟩) ^ (w.get ⟨i, hiw⟩) := by
      simp [List.get_eq_getElem, List.getElem_zipWith]
    have hzero : (List.zipWith (fun a b => a ^ b) v w).get ⟨i, hlen⟩ = 0 := by
      rw [hget, hz, Real.zero_rpow (ne_of_gt hw)]
    exact hzero ▸ List.get_mem _ _ _
  rw [List.prod_eq_zero hmem]

theorem multiplicative_zero_collapses_witness :
    score_multiplicative DEFAULT_WEIGHTS true
      (QualityVector.mk (some 0) (some 1) (some 1) (some 1) (some 1) (some 1)) = .ok 0 :=
  multiplicative_zero_collapses DEFAULT_WEIGHTS _ [0, 1, 1, 1, 1, 1]
    (by rw [to_numpy_ok] <;> simp [QualityVector.components]) 0
    (by norm_num) (by norm_num [DEFAULT_WEIGHTS]) rfl (by norm_num [DEFAULT_WEIGHTS])

lemma npClip_unit_bounds (x : ℝ) : 0 ≤ npClip x 0 1 ∧ npClip x 0 1 ≤ 1 :=
  ⟨le_min (le_max_right x 0) zero_le_one, min_le_right _ _⟩

/-- C8: the recency factor never rewards future publication dates — a run with
t_pub strictly in the future of t_current returns exactly the same result as
the run with t_pub = t_current (both recency factors are exp(0) = 1) — and
every score the function returns is clamped into [0, 1]. -/
theorem credibility_recency_and_clamp (w_source : ℝ) (n_rep : ℤ)
    (w_unc delta_phys : ℝ) (n : ℤ) (e_cv t_current t_pub t_fut : ℝ)
    (alpha n_0 beta lambda_time : ℝ)
    (hfut : t_current < t_fut) (hpub : t_pub = t_current) :
    calculate_credibility w_source n_rep w_unc delta_phys n e_cv t_current t_fut
        alpha n_0 beta lambda_time
      = calculate_credibility w_source n_rep w_unc delta_phys n e_cv t_current t_pub
        alpha n_0 beta lambda_time ∧
    ∀ k, calculate_credibility w_source n_rep w_unc delta_phys n e_cv t_current t_fut
        alpha n_0 beta lambda_time = .ok k → 0 ≤ k ∧ k ≤ 1 := by
  have hmax1 : max 0 (t_current - t_fut) = 0 := max_eq_left (by linarith)
  have hmax2 : max 0 (t_current - t_pub) = 0 := max_eq_left (by simp [hpub])
  unfold calculate_credibility
  rw [hmax1, hmax2]
  constructor
  · rfl
  · intro k hk
    split_ifs at hk
    all_goals first
      | exact Except.noConfusion hk
      | (simp only [Except.ok.injEq] at hk
         exact hk ▸ npClip_unit_bounds _)

theorem credibility_recency_and_clamp_witness :
    (calculate_credibility 1 1 1 0 10 0 2020 2021 1 10 1 (1/20)
      = calculate_credibility 1 1 1 0 10 0 2020 2020 1 10 1 (1/20) ∧
    ∀ k, calculate_credibility 1 1 1 0 10 0 2020 2021 1 10 1 (1/20) = .ok k →
      0 ≤ k ∧ k ≤ 1) :=
  credibility_recency_and_clamp 1 1 1 0 10 0 2020 2020 2021 1 10 1 (1/20)
    (by norm_num) rfl

end Scoring

namespace Gap

/-!
Acquisition-gradient invariant of the gap detector, from
src/python/tests/test_gap.py lines 113-126: given the histogram counts of a
manifold over K bins, the per-bin gradient of the KL divergence per
observation is log(max(p_k, eps) / u_k) / N with p_k = n_k / N, u_k = 1 / K
and eps = np.nextafter(0, 1), the smallest positive float64.
-/

/-- np.nextafter(0, 1) for float64: the smallest positive subnormal, 2^-1074. -/
noncomputable def eps : ℝ := 2 ^ (-(1074:ℤ))

/-- Empirical bin probability p_k = hist[k] / N. -/
noncomputable def binProb (counts : List ℕ) (k : ℕ) : ℝ :=
  (counts.getD k 0 : ℝ) / (counts.sum : ℝ)

/-- Per-bin acquisition gradient log(max(p_k, eps) / u_k) / N, with the
uniform reference u_k = 1 / K for K = len(counts). -/
noncomputable def dklGradient (counts : List ℕ) (k : ℕ) : ℝ :=
  Real.log (max (binProb counts k) eps / ((1:ℝ) / counts.length)) / (counts.sum : ℝ)

lemma eps_pos : (0:ℝ) < eps := by
  unfold eps
  positivity

/-- C4: in a histogram over K >= 2 bins where bin i is empty, every other bin
is non-empty and the total count is at least 1, the acquisition gradient
attains its minimum at the empty bin: its gradient is at most the gradient of
every bin j. -/
theorem empty_bin_minimizes_gradient (counts : List ℕ) (i j : ℕ)
    (hK : 2 ≤ counts.length) (hi : i < counts.length) (hj : j < counts.length)
    (hempty : counts.getD i 0 = 0)
    (hothers : ∀ k, k < counts.length → k ≠ i → counts.getD k 0 ≠ 0)
    (hN : 1 ≤ counts.sum) :
    dklGradient counts i ≤ dklGradient counts j := by
  have hNpos : (0:ℝ) < (counts.sum : ℝ) := by exact_mod_cast hN
  have hKpos : (0:ℝ) < (counts.length : ℝ) := by
    have : (0:ℕ) < counts.length := lt_of_lt_of_le (by norm_num) hK
    exact_mod_cast this
  have hu : (0:ℝ) < (1:ℝ) / counts.length := by positivity
  have hpi : binProb counts i = 0 := by
    unfold binProb
    rw [hempty]
    simp
  have hmaxi : max (binProb counts i) eps = eps :=
    max_eq_right (by rw [hpi]; exact le_of_lt eps_pos)
  have hmaxj : eps ≤ max (binProb counts j) eps := le_max_right _ _
  have hmaxj_pos : (0:ℝ) < max (binProb counts j) eps := lt_of_lt_of_le eps_pos hmaxj
  unfold dklGradient
  rw [hmaxi]
  have hlog : Real.log (eps / ((1:ℝ) / counts.length)) ≤
      Real.log (max (binProb counts j) eps / ((1:ℝ) / counts.length)) := by
    rw [Real.log_le_log_iff (div_pos eps_pos hu) (div_pos hmaxj_pos hu)]
    exact (div_le_div_iff_of_pos_right hu).mpr hmaxj
  exact (div_le_div_iff_of_pos_right hNpos).mpr hlog

theorem empty_bin_minimizes_gradient_witness :
    List.getD [3, 3, 3, 3, 3, 0, 3] 5 0 = 0 ∧
    dklGradient [3, 3, 3, 3, 3, 0, 3] 5 ≤ dklGradient [3, 3, 3, 3, 3, 0, 3] 0 :=
  ⟨by decide,
    empty_bin_minimizes_gradient [3, 3, 3, 3, 3, 0, 3] 5 0 (by decide) (by decide)
      (by decide) (by decide) (by decide) (by decide)⟩

end Gap

namespace Validation

/-!
Embedding of src/python/thermognosis/pipeline/validation.py.  A float64 value
is idealized as an exact rational, with `none` standing for NaN; float
arithmetic on NaN propagates it.
-/

/-- A float64 value: `none` models NaN. -/
abbrev EF : Type := Option ℚ

/-- NaN-propagating product. -/
def efMul : EF → EF → EF
  | some a, some b => some (a * b)
  | _, _ => none

/-- NaN-propagating quotient.  A zero denominator yields a non-finite float
(inf or NaN), collapsed to `none` here; at every call site below the
denominator comes from `safeKappa` and is never `some 0`, so the collapse is
unreachable. -/
def efDiv : EF → EF → EF
  | some a, some b => if b = 0 then none else some (a / b)
  | _, _ => none

/-- NaN-propagating negation. -/
def efNeg : EF → EF
  | some a => some (-a)
  | none => none

/-- NaN-propagating sum. -/
def efAdd : EF → EF → EF
  | some a, some b => some (a + b)
  | _, _ => none

/-- `np.where(kappa_arr == 0, np.nan, kappa_arr)`: exactly-zero kappa becomes
NaN; a NaN kappa compares unequal to 0 and stays NaN. -/
def safeKappa : EF → EF
  | some k => if k = 0 then none else some k
  | none => none

/-- One element of `zT = (S_arr**2 * sigma_arr * T_arr) / safe_kappa`. -/
def computeZtElem (s sig t k : EF) : EF :=
  efDiv (efMul (efMul (efMul s s) sig) t) (safeKappa k)

/-- x squared, NaN-propagating. -/
def efSq (x : EF) : EF := efMul x x

/-- One element of the first-order propagated variance
`(dzT_dS*err_S)^2 + (dzT_dsigma*err_sigma)^2 + (dzT_dT*err_T)^2 +
(dzT_dkappa*err_kappa)^2` of compute_zt (validation.py lines 176-188). -/
def ztVarElem (s sig t k es esig et ek : EF) : EF :=
  let sk := safeKappa k
  let dS := efDiv (efMul (efMul (efMul (some 2) s) sig) t) sk
  let dsig := efDiv (efMul (efMul s s) t) sk
  let dT := efDiv (efMul (efMul s s) sig) sk
  let dkap := efNeg (efDiv (efMul (efMul (efMul s s) sig) t) (efMul sk sk))
  efAdd (efAdd (efAdd (efSq (efMul dS es)) (efSq (efMul dsig esig)))
    (efSq (efMul dT et))) (efSq (efMul dkap ek))

/-- The error taxonomy of validation.py: `valueError` is the ValueError on a
shape mismatch, `physicalConstraint` the PhysicalConstraintError carrying the
violation count. -/
inductive PhysicsError where
  | valueError
  | physicalConstraint (violations : ℕ)
deriving DecidableEq

/-- The zT array of compute_zt, elementwise over the common index range. -/
def ztArr (S sigma T kappa : List EF) : List EF :=
  (List.range S.length).map (fun idx =>
    computeZtElem (S.getD idx none) (sigma.getD idx none)
      (T.getD idx none) (kappa.getD idx none))

/-- The zT_err array of compute_zt: elementwise square root of the
first-order propagated variance. -/
noncomputable def ztErrArr (S sigma T kappa eS esig eT ek : List EF) :
    List (Option ℝ) :=
  (List.range S.length).map (fun idx =>
    (ztVarElem (S.getD idx none) (sigma.getD idx none) (T.getD idx none)
      (kappa.getD idx none) (eS.getD idx none) (esig.getD idx none)
      (eT.getD idx none) (ek.getD idx none)).map (fun v => Real.sqrt (v : ℝ)))

/-- `ThermoelectricValidator.compute_zt` (validation.py lines 107-191):
shape check, safe-kappa division, and first-order error propagation.  Missing
uncertainty arrays default to `np.zeros_like`.  Error arrays are indexed with
getD; Python would broadcast-error on mismatched uncertainty shapes, and
callers pass matching shapes. -/
noncomputable def compute_zt (S sigma T kappa : List EF)
    (err_S err_sigma err_T err_kappa : Option (List EF)) :
    Except PhysicsError (List EF × List (Option ℝ)) :=
  if ¬ (sigma.length = S.length ∧ T.length = S.length ∧ kappa.length = S.length)
  then .error .valueError
  else
    let n := S.length
    .ok (ztArr S sigma T kappa,
      ztErrArr S sigma T kappa
        (err_S.getD (List.replicate n (some 0)))
        (err_sigma.getD (List.replicate n (some 0)))
        (err_T.getD (List.replicate n (some 0)))
        (err_kappa.getD (List.replicate n (some 0))))

/-- `np.greater(x, 0.0, where=~np.isnan(x))` elementwise: the comparison where
the mask holds; where the mask is false (x is NaN) the output buffer is left
uninitialized by numpy, modelled by the arbitrary bit `g`. -/
def npGreaterWhere (x : EF) (g : Bool) : Bool :=
  match x with
  | some v => decide (0 < v)
  | none => g

/-- `np.greater_equal(x, 0.0, where=~np.isnan(x))` elementwise, as above. -/
def npGreaterEqualWhere (x : EF) (g : Bool) : Bool :=
  match x with
  | some v => decide (0 ≤ v)
  | none => g

/-- One element of
`valid_T & valid_sigma & valid_kappa & valid_zT & ~np.isnan(zT)`. -/
def validElem (t sig k zt : EF) (gT gsig gk gzt : Bool) : Bool :=
  npGreaterWhere t gT && npGreaterWhere sig gsig && npGreaterWhere k gk &&
    npGreaterEqualWhere zt gzt && zt.isSome

/-- The frozen dataclass `ValidatedThermoelectricState`. -/
structure ValidatedThermoelectricState where
  T : List EF
  S : List EF
  sigma : List EF
  kappa : List EF
  zT : List EF
  zT_err : List (Option ℝ)
  is_valid : List Bool

/-- `ThermoelectricValidator.validate` (validation.py lines 193-274).  The
four functions gT, gsig, gk, gzt supply the uninitialized bits of the
`where=`-masked comparisons; the theorems below hold for every choice. -/
noncomputable def validate (S sigma T kappa : List EF)
    (err_S err_sigma err_T err_kappa : Option (List EF)) (strict : Bool)
    (gT gsig gk gzt : ℕ → Bool) :
    Except PhysicsError ValidatedThermoelectricState :=
  match compute_zt S sigma T kappa err_S err_sigma err_T err_kappa with
  | .error e => .error e
  | .ok (zT_arr, zT_err_arr) =>
    let mask := (List.range S.length).map (fun idx =>
      validElem (T.getD idx none) (sigma.getD idx none) (kappa.getD idx none)
        (zT_arr.getD idx none) (gT idx) (gsig idx) (gk idx) (gzt idx))
    if strict = true ∧ mask.any (fun b => !b) then
      .error (.physicalConstraint (mask.countP (fun b => !b)))
    else
      .ok ⟨T, S, sigma, kappa, zT_arr, zT_err_arr, mask⟩

/-- x is a positive (hence non-NaN) float. -/
def efPosB : EF → Bool
  | some v => decide (0 < v)
  | none => false

/-- x is a non-negative (hence non-NaN) float. -/
def efNonnegB : EF → Bool
  | some v => decide (0 ≤ v)
  | none => false

/-- Written from the claim, not from the code: an element violates the hard
constraints when not (T > 0 and sigma > 0 and kappa > 0 and zT >= 0 and zT
not NaN), float comparisons with NaN being false. -/
def violatesHardConstraints (s sig t k : EF) : Bool :=
  let zt := computeZtElem s sig t k
  !(efPosB t && efPosB sig && efPosB k && efNonnegB zt && zt.isSome)

lemma efDiv_none_right (x : EF) : efDiv x none = none := by
  cases x <;> rfl

lemma computeZtElem_none (s sig t k : EF)
    (h : s = none ∨ sig = none ∨ t = none ∨ k = none) :
    computeZtElem s sig t k = none := by
  unfold computeZtElem
  rcases h with rfl | rfl | rfl | rfl
  · cases sig <;> cases t <;> cases k <;> simp [efMul, efDiv, safeKappa]
  · cases s <;> cases t <;> cases k <;> simp [efMul, efDiv, safeKappa]
  · cases s <;> cases sig <;> cases k <;> simp [efMul, efDiv, safeKappa]
  · cases s <;> cases sig <;> cases t <;> simp [efMul, efDiv, safeKappa]

/-- Whatever the uninitialized bits are, the computed mask element agrees
with the negation of the hard-constraint violation predicate. -/
lemma validElem_eq_not_violates (s sig t k : EF) (gT gsig gk gzt : Bool) :
    validElem t sig k (computeZtElem s sig t k) gT gsig gk gzt
      = !(violatesHardConstraints s sig t k) := by
  unfold validElem violatesHardConstraints
  rw [Bool.not_not]
  rcases hzt : computeZtElem s sig t k with _ | zv
  · simp [npGreaterEqualWhere, efNonnegB]
  · have hs : s ≠ none := by
      intro h
      rw [computeZtElem_none s sig t k (Or.inl h)] at hzt
      exact Option.noConfusion hzt
    have hsig : sig ≠ none := by
      intro h
      rw [computeZtElem_none s sig t k (Or.inr (Or.inl h))] at hzt
      exact Option.noConfusion hzt
    have ht : t ≠ none := by
      intro h
      rw [computeZtElem_none s sig t k (Or.inr (Or.inr (Or.inl h)))] at hzt
      exact Option.noConfusion hzt
    have hk : k ≠ none := by
      intro h
      rw [computeZtElem_none s sig t k (Or.inr (Or.inr (Or.inr h)))] at hzt
      exact Option.noConfusion hzt
    rcases t with _ | tv
    · exact absurd rfl ht
    rcases sig with _ | sgv
    · exact absurd rfl hsig
    rcases k with _ | kv
    · exact absurd rfl hk
    simp [npGreaterWhere, npGreaterEqualWhere, efPosB, efNonnegB]

lemma getD_range_map {α : Type} (f : ℕ → α) (n idx : ℕ) (h : idx < n) (d : α) :
    ((List.range n).map f).getD idx d = f idx := by
  have hlen : idx < ((List.range n).map f).length := by simpa using h
  rw [List.getD_eq_getElem _ _ hlen]
  simp

lemma safeKappa_zero : safeKappa (some 0) = none := by simp [safeKappa]

lemma computeZtElem_kappa_zero (s sig t : EF) :
    computeZtElem s sig t (some 0) = none := by
  unfold computeZtElem
  rw [safeKappa_zero]
  exact efDiv_none_right _

lemma any_not_map_not (l : List ℕ) (f : ℕ → Bool) :
    (l.map (fun i => !(f i))).any (fun b => !b) = l.any f := by
  induction l with
  | nil => rfl
  | cons x xs ih => simp [List.any_cons, ih, Bool.not_not]

lemma countP_not_map_not (l : List ℕ) (f : ℕ → Bool) :
    (l.map (fun i => !(f i))).countP (fun b => !b) = l.countP f := by
  induction l with
  | nil => rfl
  | cons x xs ih => simp [List.countP_cons, ih, Bool.not_not]

/-- The violation predicate read off at index idx of the input arrays. -/
def vioAt (S sigma T kappa : List EF) (idx : ℕ) : Bool :=
  violatesHardConstraints (S.getD idx none) (sigma.getD idx none)
    (T.getD idx none) (kappa.getD idx none)

lemma mask_eq_not_vioAt (S sigma T kappa : List EF) (gT gsig gk gzt : ℕ → Bool) :
    (List.range S.length).map (fun idx =>
      validElem (T.getD idx none) (sigma.getD idx none) (kappa.getD idx none)
        ((ztArr S sigma T kappa).getD idx none)
        (gT idx) (gsig idx) (gk idx) (gzt idx))
      = (List.range S.length).map (fun idx => !(vioAt S sigma T kappa idx)) := by
  apply List.map_congr_left
  intro idx hidx
  rw [ztArr, getD_range_map _ _ _ (List.mem_range.mp hidx)]
  exact validElem_eq_not_violates _ _ _ _ _ _ _ _

/-- With matching shapes, validate reduces to a decision on the violation
predicate: strict mode errors with the violation count as soon as one index
violates, non-strict mode returns the full state whose mask negates the
violation predicate pointwise. -/
lemma validate_reduces (S sigma T kappa : List EF)
    (err_S err_sigma err_T err_kappa : Option (List EF)) (strict : Bool)
    (gT gsig gk gzt : ℕ → Bool)
    (hsig : sigma.length = S.length) (hT : T.length = S.length)
    (hk : kappa.length = S.length) :
    validate S sigma T kappa err_S err_sigma err_T err_kappa strict gT gsig gk gzt
      = if strict = true ∧ (List.range S.length).any (vioAt S sigma T kappa) then
          .error (.physicalConstraint
            ((List.range S.length).countP (vioAt S sigma T kappa)))
        else
          .ok ⟨T, S, sigma, kappa, ztArr S sigma T kappa,
            ztErrArr S sigma T kappa
              (err_S.getD (List.replicate S.length (some 0)))
              (err_sigma.getD (List.replicate S.length (some 0)))
              (err_T.getD (List.replicate S.length (some 0)))
              (err_kappa.getD (List.replicate S.length (some 0))),
            (List.range S.length).map (fun idx => !(vioAt S sigma T kappa idx))⟩ := by
  have hshape : ¬¬(sigma.length = S.length ∧ T.length = S.length ∧
      kappa.length = S.length) := not_not_intro ⟨hsig, hT, hk⟩
  unfold validate compute_zt
  rw [if_neg hshape]
  simp only [mask_eq_not_vioAt S sigma T kappa gT gsig gk gzt]
  rw [any_not_map_not (List.range S.length) (vioAt S sigma T kappa),
    countP_not_map_not (List.range S.length) (vioAt S sigma T kappa)]

/-- C1: on shape-matching inputs with at least one element violating the hard
constraints (T > 0, sigma > 0, kappa > 0, zT >= 0, zT not NaN), strict
validation raises PhysicalConstraintError carrying the exact number of
violating elements and returns no state, while non-strict validation raises
nothing and returns the full array set whose is_valid mask is False exactly
at the violating indices — for every realization of the uninitialized bits of
the masked numpy comparisons. -/
theorem validate_strict_vs_mask (S sigma T kappa : List EF)
    (err_S err_sigma err_T err_kappa : Option (List EF))
    (gT gsig gk gzt : ℕ → Bool)
    (hsig : sigma.length = S.length) (hT : T.length = S.length)
    (hk : kappa.length = S.length)
    (hviol : ∃ idx, idx < S.length ∧ vioAt S sigma T kappa idx = true) :
    validate S sigma T kappa err_S err_sigma err_T err_kappa true gT gsig gk gzt
      = .error (.physicalConstraint
          ((List.range S.length).countP (vioAt S sigma T kappa))) ∧
    ∃ st, validate S sigma T kappa err_S err_sigma err_T err_kappa false
        gT gsig gk gzt = .ok st
      ∧ st.T = T ∧ st.S = S ∧ st.sigma = sigma ∧ st.kappa = kappa
      ∧ st.zT = ztArr S sigma T kappa
      ∧ ∀ idx, idx < S.length →
          (st.is_valid.getD idx true = false ↔ vioAt S sigma T kappa idx = true) := by
  obtain ⟨idx0, hidx0, hvio0⟩ := hviol
  have hany : (List.range S.length).any (vioAt S sigma T kappa) = true :=
    List.any_eq_true.mpr ⟨idx0, List.mem_range.mpr hidx0, hvio0⟩
  constructor
  · rw [validate_reduces S sigma T kappa err_S err_sigma err_T err_kappa true
      gT gsig gk gzt hsig hT hk, if_pos ⟨rfl, hany⟩]
  · refine ⟨_, by
      rw [validate_reduces S sigma T kappa err_S err_sigma err_T err_kappa false
        gT gsig gk gzt hsig hT hk, if_neg (by simp)], rfl, rfl, rfl, rfl, rfl, ?_⟩
    intro idx hidx
    show ((List.range S.length).map
      (fun i => !(vioAt S sigma T kappa i))).getD idx true = false ↔ _
    rw [getD_range_map _ _ _ hidx]
    simp

theorem validate_strict_vs_mask_witness :
    validate [some 1, some 1] [some 1, some 1] [some 300, some 300]
        [some 1, some 0] none none none none true
        (fun _ => true) (fun _ => true) (fun _ => true) (fun _ => true)
      = .error (.physicalConstraint
          ((List.range 2).countP (vioAt [some 1, some 1] [some 1, some 1]
            [some 300, some 300] [some 1, some 0]))) ∧
    ∃ st, validate [some 1, some 1] [some 1, some 1] [some 300, some 300]
        [some 1, some 0] none none none none false
        (fun _ => true) (fun _ => true) (fun _ => true) (fun _ => true) = .ok st
      ∧ st.T = [some 300, some 300] ∧ st.S = [some 1, some 1]
      ∧ st.sigma = [some 1, some 1] ∧ st.kappa = [some 1, some 0]
      ∧ st.zT = ztArr [some 1, some 1] [some 1, some 1] [some 300, some 300]
          [some 1, some 0]
      ∧ ∀ idx, idx < 2 →
          (st.is_valid.getD idx true = false ↔ vioAt [some 1, some 1]
            [some 1, some 1] [some 300, some 300] [some 1, some 0] idx = true) :=
  validate_strict_vs_mask [some 1, some 1] [some 1, some 1]
    [some 300, some 300] [some 1, some 0] none none none none
    (fun _ => true) (fun _ => true) (fun _ => true) (fun _ => true)
    rfl rfl rfl ⟨1, by norm_num, by decide⟩

/-- C5: a zero thermal conductivity never raises in compute_zt: the call
succeeds and the zT marker at that element is NaN; the element is rejected
only later, by the validity gate of validate, whose non-strict mask is False
there. -/
theorem kappa_zero_is_deferred (S sigma T kappa : List EF)
    (err_S err_sigma err_T err_kappa : Option (List EF))
    (gT gsig gk gzt : ℕ → Bool) (i : ℕ)
    (hsig : sigma.length = S.length) (hT : T.length = S.length)
    (hk : kappa.length = S.length) (hi : i < S.length)
    (hkz : kappa.getD i none = some 0) :
    (∃ p, compute_zt S sigma T kappa err_S err_sigma err_T err_kappa = .ok p ∧
      p.1.getD i none = none) ∧
    ∃ st, validate S sigma T kappa err_S err_sigma err_T err_kappa false
        gT gsig gk gzt = .ok st ∧ st.is_valid.getD i true = false := by
  have hshape : ¬¬(sigma.length = S.length ∧ T.length = S.length ∧
      kappa.length = S.length) := not_not_intro ⟨hsig, hT, hk⟩
  have hzt : (ztArr S sigma T kappa).getD i none = none := by
    rw [ztArr, getD_range_map _ _ _ hi, hkz]
    exact computeZtElem_kappa_zero _ _ _
  constructor
  · refine ⟨_, by unfold compute_zt; rw [if_neg hshape], hzt⟩
  · refine ⟨_, by
      rw [validate_reduces S sigma T kappa err_S err_sigma err_T err_kappa false
        gT gsig gk gzt hsig hT hk, if_neg (by simp)], ?_⟩
    show ((List.range S.length).map
      (fun idx => !(vioAt S sigma T kappa idx))).getD i true = false
    rw [getD_range_map _ _ _ hi]
    suffices h : vioAt S sigma T kappa i = true by rw [h]; rfl
    unfold vioAt violatesHardConstraints
    rw [hkz]
    rw [computeZtElem_kappa_zero]
    simp [efNonnegB]

theorem kappa_zero_is_deferred_witness :
    (∃ p, compute_zt [some 1] [some 1] [some 300] [some 0] none none none none
      = .ok p ∧ p.1.getD 0 none = none) ∧
    ∃ st, validate [some 1] [some 1] [some 300] [some 0] none none none none
        false (fun _ => false) (fun _ => false) (fun _ => false)
        (fun _ => false) = .ok st ∧ st.is_valid.getD 0 true = false :=
  kappa_zero_is_deferred [some 1] [some 1] [some 300] [some 0]
    none none none none (fun _ => false) (fun _ => false) (fun _ => false)
    (fun _ => false) 0 rfl rfl rfl (by norm_num) rfl

end Validation

namespace Grouping

/-!
Single-pass contiguous grouping, embedded from
`MaterialRanker._prepare_c_contiguous_tensors` (ranking.py lines 104-166) and
`GapDetector._extract_and_structure_data` (gap_detection.py lines 99-129).
-/

/-- One ordered row (material_id, posterior_credibility, zT, citation). -/
structure RankRow where
  material_id : String
  p : ℝ
  zt : ℝ
  c : ℝ

/-- The five-tuple returned by `_prepare_c_contiguous_tensors`. -/
structure PreparedTensors where
  p_arr : List ℝ
  zt_arr : List ℝ
  c_arr : List ℝ
  material_bounds : List (ℕ × ℕ)
  material_ids : List String

/-- The loop of `_prepare_c_contiguous_tensors`: `cur` is current_mat_id,
`start` is start_idx and `i` the enumeration index; a material change seals
(start, i) and the loop ends by sealing (start, len(rows)). -/
def prepAux : List RankRow → String → ℕ → ℕ → PreparedTensors
  | [], cur, start, i => ⟨[], [], [], [(start, i)], [cur]⟩
  | r :: rest, cur, start, i =>
    if r.material_id = cur then
      let t := prepAux rest cur start (i + 1)
      ⟨r.p :: t.p_arr, r.zt :: t.zt_arr, r.c :: t.c_arr,
        t.material_bounds, t.material_ids⟩
    else
      let t := prepAux rest r.material_id i (i + 1)
      ⟨r.p :: t.p_arr, r.zt :: t.zt_arr, r.c :: t.c_arr,
        (start, i) :: t.material_bounds, cur :: t.material_ids⟩

/-- `_prepare_c_contiguous_tensors`: empty input returns five empty arrays,
otherwise the single-pass loop starting from rows[0]. -/
def prepare : List RankRow → PreparedTensors
  | [] => ⟨[], [], [], [], []⟩
  | r :: rest => prepAux (r :: rest) r.material_id 0 0

/-- `DatabaseExtractionError` of gap_detection.py. -/
inductive GapDetectionError where
  | databaseExtraction
deriving DecidableEq

/-- The loop of `_extract_and_structure_data`: current_mat starts as None and
no boundary is sealed before the first row. -/
def extractAux : List (String × ℝ) → Option String → ℕ → ℕ →
    List ℝ × List (ℕ × ℕ) × List String
  | [], cur, start, i =>
    match cur with
    | none => ([], [], [])
    | some m => ([], [(start, i)], [m])
  | (mat, t) :: rest, cur, start, i =>
    if some mat = cur then
      let r := extractAux rest cur start (i + 1)
      (t :: r.1, r.2.1, r.2.2)
    else
      match cur with
      | none =>
        let r := extractAux rest (some mat) i (i + 1)
        (t :: r.1, r.2.1, r.2.2)
      | some m =>
        let r := extractAux rest (some mat) i (i + 1)
        (t :: r.1, (start, i) :: r.2.1, m :: r.2.2)

/-- `_extract_and_structure_data` (after the db fetch): raises
DatabaseExtractionError on an empty row set, else runs the single pass. -/
def extract (rows : List (String × ℝ)) :
    Except GapDetectionError (List ℝ × List (ℕ × ℕ) × List String) :=
  if rows.isEmpty then .error .databaseExtraction
  else .ok (extractAux rows none 0 0)

/-- Boundary tuples are contiguous, non-overlapping, and chained from s to e:
each tuple starts where the previous one ended. -/
def covers : List (ℕ × ℕ) → ℕ → ℕ → Bool
  | [], s, e => s == e
  | (a, b) :: rest, s, e => (a == s) && decide (a ≤ b) && covers rest b e

lemma covers_le (bs : List (ℕ × ℕ)) (s e : ℕ) (h : covers bs s e = true) :
    s ≤ e := by
  induction bs generalizing s with
  | nil =>
    simp only [covers, beq_iff_eq] at h
    omega
  | cons p rest ih =>
    obtain ⟨a, b⟩ := p
    simp only [covers, Bool.and_eq_true, beq_iff_eq, decide_eq_true_eq] at h
    exact le_trans (le_trans (le_of_eq h.1.1.symm) h.1.2) (ih b h.2)

/-- A chained boundary list covers exactly the indices in [s, e). -/
lemma covers_any_iff (bs : List (ℕ × ℕ)) (s e : ℕ) (h : covers bs s e = true)
    (k : ℕ) :
    (bs.any (fun p => decide (p.1 ≤ k) && decide (k < p.2))) = true ↔
      (s ≤ k ∧ k < e) := by
  induction bs generalizing s with
  | nil =>
    simp only [covers, beq_iff_eq] at h
    subst h
    simp only [List.any_nil]
    constructor
    · intro hfalse
      exact Bool.noConfusion hfalse
    · intro hk
      omega
  | cons p rest ih =>
    obtain ⟨a, b⟩ := p
    simp only [covers, Bool.and_eq_true, beq_iff_eq, decide_eq_true_eq] at h
    obtain ⟨⟨rfl, hab⟩, hrest⟩ := h
    have hbe := covers_le rest b e hrest
    rw [List.any_cons]
    simp only [Bool.or_eq_true, Bool.and_eq_true, decide_eq_true_eq]
    rw [ih b hrest]
    omega

lemma prepAux_spec (rows : List RankRow) (cur : String) (start i : ℕ)
    (h : start ≤ i) :
    covers (prepAux rows cur start i).material_bounds start (i + rows.length)
        = true ∧
    (prepAux rows cur start i).material_bounds.length
        = (prepAux rows cur start i).material_ids.length ∧
    (prepAux rows cur start i).p_arr.length = rows.length ∧
    (prepAux rows cur start i).zt_arr.length = rows.length ∧
    (prepAux rows cur start i).c_arr.length = rows.length := by
  induction rows generalizing cur start i with
  | nil =>
    refine ⟨?_, rfl, rfl, rfl, rfl⟩
    simp [prepAux, covers, h]
  | cons r rest ih =>
    by_cases hc : r.material_id = cur
    · have hrec := ih cur start (i + 1) (le_trans h (Nat.le_succ i))
      have heq : i + (rest.length + 1) = i + 1 + rest.length := by omega
      simp only [prepAux, if_pos hc, List.length_cons, heq]
      exact ⟨hrec.1, hrec.2.1, by simp [hrec.2.2.1], by simp [hrec.2.2.2.1],
        by simp [hrec.2.2.2.2]⟩
    · have hrec := ih r.material_id i (i + 1) (Nat.le_succ i)
      have heq : i + (rest.length + 1) = i + 1 + rest.length := by omega
      simp only [prepAux, if_neg hc, List.length_cons, heq]
      refine ⟨?_, by simp [hrec.2.1], by simp [hrec.2.2.1],
        by simp [hrec.2.2.2.1], by simp [hrec.2.2.2.2]⟩
      simp only [covers, Bool.and_eq_true, beq_iff_eq, decide_eq_true_eq]
      exact ⟨⟨by trivial, h⟩, hrec.1⟩

lemma extractAux_spec (rows : List (String × ℝ)) (m : String) (start i : ℕ)
    (h : start ≤ i) :
    covers (extractAux rows (some m) start i).2.1 start (i + rows.length)
        = true ∧
    (extractAux rows (some m) start i).2.1.length
        = (extractAux rows (some m) start i).2.2.length ∧
    (extractAux rows (some m) start i).1.length = rows.length := by
  induction rows generalizing m start i with
  | nil =>
    refine ⟨?_, rfl, rfl⟩
    simp [extractAux, covers, h]
  | cons r rest ih =>
    obtain ⟨mat, t⟩ := r
    by_cases hc : some mat = some m
    · have hrec := ih m start (i + 1) (le_trans h (Nat.le_succ i))
      have heq : i + (rest.length + 1) = i + 1 + rest.length := by omega
      simp only [extractAux, if_pos hc, List.length_cons, heq]
      exact ⟨hrec.1, hrec.2.1, by simp [hrec.2.2]⟩
    · have hrec := ih mat i (i + 1) (Nat.le_succ i)
      have heq : i + (rest.length + 1) = i + 1 + rest.length := by omega
      simp only [extractAux, if_neg hc, List.length_cons, heq]
      refine ⟨?_, by simp [hrec.2.1], by simp [hrec.2.2]⟩
      simp only [covers, Bool.and_eq_true, beq_iff_eq, decide_eq_true_eq]
      exact ⟨⟨by trivial, h⟩, hrec.1⟩

/-- C9: on a non-empty ordered row list of length N, the ranking grouping
pass returns boundary tuples chained contiguously over exactly [0, N) (their
union covers each index below N and nothing else), as many boundaries as
material identifiers, and three flattened value arrays of length N; the gap
detector's single-pass partition of its temperature array satisfies the same
invariant. -/
theorem grouping_partitions_inputs (rows : List RankRow)
    (grows : List (String × ℝ)) (hr : rows ≠ []) (hg : grows ≠ []) :
    (covers (prepare rows).material_bounds 0 rows.length = true ∧
     (∀ k, ((prepare rows).material_bounds.any
        (fun p => decide (p.1 ≤ k) && decide (k < p.2))) = true ↔
          k < rows.length) ∧
     (prepare rows).material_bounds.length
        = (prepare rows).material_ids.length ∧
     (prepare rows).p_arr.length = rows.length ∧
     (prepare rows).zt_arr.length = rows.length ∧
     (prepare rows).c_arr.length = rows.length) ∧
    ∃ res, extract grows = .ok res ∧
      covers res.2.1 0 grows.length = true ∧
      (∀ k, (res.2.1.any (fun p => decide (p.1 ≤ k) && decide (k < p.2)))
          = true ↔ k < grows.length) ∧
      res.2.1.length = res.2.2.length ∧
      res.1.length = grows.length := by
  constructor
  · match rows, hr with
    | r :: rest, _ =>
      have hspec := prepAux_spec (r :: rest) r.material_id 0 0 (le_refl 0)
      simp only [Nat.zero_add] at hspec
      simp only [prepare]
      refine ⟨hspec.1, ?_, hspec.2⟩
      intro k
      rw [covers_any_iff _ 0 (r :: rest).length hspec.1 k]
      omega
  · match grows, hg with
    | (mat, t) :: rest, _ =>
      have hne : ¬ ((mat, t) :: rest : List (String × ℝ)).isEmpty = true := by
        simp
      refine ⟨extractAux ((mat, t) :: rest) none 0 0, ?_, ?_⟩
      · unfold extract
        rw [if_neg hne]
      · have hfirst : extractAux ((mat, t) :: rest) none 0 0
            = (t :: (extractAux rest (some mat) 0 1).1,
               (extractAux rest (some mat) 0 1).2.1,
               (extractAux rest (some mat) 0 1).2.2) := by
          simp [extractAux]
        have hspec := extractAux_spec rest mat 0 1 (Nat.zero_le 1)
        have heq : 1 + rest.length = ((mat, t) :: rest).length := by
          simp [List.length_cons]
          omega
        rw [heq] at hspec
        rw [hfirst]
        refine ⟨hspec.1, ?_, by simp [hspec.2.1], by simp [hspec.2.2]⟩
        intro k
        rw [covers_any_iff _ 0 ((mat, t) :: rest).length hspec.1 k]
        omega

theorem grouping_partitions_inputs_witness :
    (covers (prepare [⟨"A", 1, 1, 1⟩, ⟨"B", 2, 2, 2⟩]).material_bounds 0 2
        = true ∧
     (∀ k, ((prepare [⟨"A", 1, 1, 1⟩,
        ⟨"B", 2, 2, 2⟩]).material_bounds.any
        (fun p => decide (p.1 ≤ k) && decide (k < p.2))) = true ↔ k < 2) ∧
     (prepare [⟨"A", 1, 1, 1⟩, ⟨"B", 2, 2, 2⟩]).material_bounds.length
        = (prepare [⟨"A", 1, 1, 1⟩, ⟨"B", 2, 2, 2⟩]).material_ids.length ∧
     (prepare [⟨"A", 1, 1, 1⟩, ⟨"B", 2, 2, 2⟩]).p_arr.length = 2 ∧
     (prepare [⟨"A", 1, 1, 1⟩, ⟨"B", 2, 2, 2⟩]).zt_arr.length = 2 ∧
     (prepare [⟨"A", 1, 1, 1⟩, ⟨"B", 2, 2, 2⟩]).c_arr.length = 2) ∧
    ∃ res, extract [("A", 300), ("A", 400), ("B", 500)] = .ok res ∧
      covers res.2.1 0 3 = true ∧
      (∀ k, (res.2.1.any (fun p => decide (p.1 ≤ k) && decide (k < p.2)))
          = true ↔ k < 3) ∧
      res.2.1.length = res.2.2.length ∧
      res.1.length = 3 :=
  grouping_partitions_inputs [⟨"A", 1, 1, 1⟩, ⟨"B", 2, 2, 2⟩]
    [("A", 300), ("A", 400), ("B", 500)] (by simp) (by simp)

end Grouping

namespace Hashing

/-!
Embedding of src/python/thermognosis/utils/hashing.py: the canonical
standardization tree, its compact JSON dump, and the digest pipeline.  The
SHA-256 compression itself is hashlib, an external collaborator, so the
digest functions are parameterized by it; everything the repository adds
around it (rounding, negative-zero neutralization, marker strings, key
sorting, error taxonomy, hex rendering) is modelled exactly.
-/

/-- A Python float64 as seen by _standardize_value: NaN, an infinity, the
IEEE negative zero, or a finite value identified with its exact rational. -/
inductive PyFloat where
  | nan
  | inf
  | ninf
  | negZero
  | finite (q : ℚ)
deriving DecidableEq

/-- The value universe handled by _standardize_value (hashing.py lines
142-183), restricted to the JSON-like cases: None, bool, int, float, str,
list/tuple, dict with string keys.  `obj tag` stands for a value of any type
outside the supported chain, which line 180 rejects.  (ndarrays reduce to
lists via tolist; sets, DataFrames, Series and datetimes are collaborator
shapes outside this model.) -/
inductive PyVal where
  | pynone
  | pybool (b : Bool)
  | pyint (z : ℤ)
  | pyfloat (f : PyFloat)
  | pystr (s : String)
  | pylist (xs : List PyVal)
  | pydict (kvs : List (String × PyVal))
  | obj (tag : String)

/-- The standardized tree fed to json.dumps: floats have already become
strings, so no JSON float exists. -/
inductive JVal where
  | null
  | jbool (b : Bool)
  | jint (z : ℤ)
  | jstr (s : String)
  | jarr (xs : List JVal)
  | jobj (kvs : List (String × JVal))

/-- `CanonicalSerializationError`. -/
inductive CanonicalSerializationError where
  | unsupportedType (tag : String)
deriving DecidableEq

/-- `HashComputationError`, re-raised around a serialization failure. -/
inductive HashComputationError where
  | serialization (e : CanonicalSerializationError)
deriving DecidableEq

/-- Round to the nearest integer, ties to even (Python round). -/
def roundHalfEven (q : ℚ) : ℤ :=
  let f := ⌊q⌋
  let r := q - f
  if r < 1/2 then f
  else if 1/2 < r then f + 1
  else if f % 2 = 0 then f else f + 1

/-- `round(x, 12)`: rounding to NUMERICAL_PRECISION = 12 decimal places,
idealized to exact rationals (Python rounds the underlying binary double). -/
def roundTo12 (q : ℚ) : ℚ := (roundHalfEven (q * 10 ^ 12) : ℚ) / 10 ^ 12

/-- Left-pad with zeros to n characters. -/
def padZeros (n : ℕ) (s : String) : String :=
  String.mk (List.replicate (n - s.length) '0') ++ s

/-- Fixed formatting with 12 digits after the point, for values that are
integer multiples of 10^-12 (every rounded value is). -/
def formatFixed12 (q : ℚ) : String :=
  let z : ℤ := ⌊q * 10 ^ 12⌋
  let sign := if z < 0 then "-" else ""
  let a := z.natAbs
  sign ++ toString (a / 10 ^ 12) ++ "." ++ padZeros 12 (toString (a % 10 ^ 12))

/-- The float branch of _standardize_value (hashing.py lines 148-158): NaN
and the infinities become marker strings; a finite value is rounded to 12
decimal places, a resulting negative zero is replaced by +0.0, and the value
is formatted with explicit .12f precision.  In the exact-rational model the
rounded value of -0.0 is the rational 0, so after the neutralization step
only the sign-free formatting of the rational remains. -/
def standardizeFloat : PyFloat → JVal
  | .nan => .jstr "NaN"
  | .inf => .jstr "Infinity"
  | .ninf => .jstr "-Infinity"
  | .negZero => .jstr (formatFixed12 0)
  | .finite q => .jstr (formatFixed12 (roundTo12 q))

/-- Insertion into a key-sorted association list. -/
def insertByKey (p : String × JVal) : List (String × JVal) → List (String × JVal)
  | [] => [p]
  | q :: rest => if p.1 < q.1 then p :: q :: rest else q :: insertByKey p rest

/-- Python sorted on dict items: keys compared by code points. -/
def sortByKey (l : List (String × JVal)) : List (String × JVal) :=
  l.foldr insertByKey []

mutual

/-- _standardize_value on the modelled universe.  Python sorts the dict items
first and then standardizes each value; since keys are untouched and values
are standardized independently, sorting the standardized pairs afterwards
yields the same tree (dict keys are unique). -/
def standardize : PyVal → Except CanonicalSerializationError JVal
  | .pynone => .ok .null
  | .pybool b => .ok (.jbool b)
  | .pyint z => .ok (.jint z)
  | .pyfloat f => .ok (standardizeFloat f)
  | .pystr s => .ok (.jstr s)
  | .pylist xs => (standardizeList xs).map .jarr
  | .pydict kvs => (standardizeKVs kvs).map (fun l => .jobj (sortByKey l))
  | .obj tag => .error (.unsupportedType tag)

def standardizeList : List PyVal → Except CanonicalSerializationError (List JVal)
  | [] => .ok []
  | v :: vs =>
    match standardize v, standardizeList vs with
    | .ok j, .ok js => .ok (j :: js)
    | .error e, _ => .error e
    | .ok _, .error e => .error e

def standardizeKVs : List (String × PyVal) →
    Except CanonicalSerializationError (List (String × JVal))
  | [] => .ok []
  | (k, v) :: rest =>
    match standardize v, standardizeKVs rest with
    | .ok j, .ok js => .ok ((k, j) :: js)
    | .error e, _ => .error e
    | .ok _, .error e => .error e

end

/-- Four lowercase hex digits. -/
def u4 (n : ℕ) : String :=
  String.mk [Nat.digitChar (n / 4096 % 16), Nat.digitChar (n / 256 % 16),
    Nat.digitChar (n / 16 % 16), Nat.digitChar (n % 16)]

/-- One character escaped as by json.dumps with ensure_ascii=True: quote and
backslash escaped, the short control escapes, other control and all
non-ASCII characters as 4-digit escapes, a scalar beyond the basic plane as
a surrogate pair. -/
def escapeChar (c : Char) : String :=
  if c = '\x22' then "\\\""
  else if c = '\\' then "\\\\"
  else if c.toNat < 32 then
    if c = '\x08' then "\\b"
    else if c = '\t' then "\\t"
    else if c = '\n' then "\\n"
    else if c = '\x0c' then "\\f"
    else if c = '\x0d' then "\\r"
    else "\\u" ++ u4 c.toNat
  else if c.toNat < 128 then String.mk [c]
  else if c.toNat < 65536 then "\\u" ++ u4 c.toNat
  else
    let v := c.toNat - 65536
    "\\u" ++ u4 (55296 + v / 1024) ++ "\\u" ++ u4 (56320 + v % 1024)

/-- A JSON string literal. -/
def jsonQuote (s : String) : String :=
  "\x22" ++ String.join (s.data.map escapeChar) ++ "\x22"

mutual

/-- json.dumps with ensure_ascii=True, sort_keys=True and separators
(",", ":"): object keys are already sorted by `standardize`, so the dump
keeps their order. -/
def serializeJ : JVal → String
  | .null => "null"
  | .jbool b => if b then "true" else "false"
  | .jint z => toString z
  | .jstr s => jsonQuote s
  | .jarr xs => "[" ++ serializeArr xs ++ "]"
  | .jobj kvs => "\x7b" ++ serializeObj kvs ++ "\x7d"

def serializeArr : List JVal → String
  | [] => ""
  | [x] => serializeJ x
  | x :: y :: rest => serializeJ x ++ "," ++ serializeArr (y :: rest)

def serializeObj : List (String × JVal) → String
  | [] => ""
  | [(k, v)] => jsonQuote k ++ ":" ++ serializeJ v
  | (k, v) :: p :: rest =>
    jsonQuote k ++ ":" ++ serializeJ v ++ "," ++ serializeObj (p :: rest)

end

/-- `canonical_serialize` (hashing.py lines 186-225): standardize, then dump;
the final UTF-8 encoding is modelled by the string itself. -/
def canonical_serialize (v : PyVal) : Except CanonicalSerializationError String :=
  (standardize v).map serializeJ

/-- Two lowercase hex characters of one byte. -/
def hexByte (b : ℕ) : List Char := [Nat.digitChar (b / 16 % 16), Nat.digitChar (b % 16)]

/-- `hexdigest()` of a digest given as bytes. -/
def hexDigest (bytes : List ℕ) : String :=
  String.mk (bytes.foldr (fun b acc => hexByte b ++ acc) [])

/-- `compute_sha256_hash` (hashing.py lines 228-261), parameterized by the
SHA-256 compression `sha` of hashlib: hash the canonical bytes and render the
lowercase hex digest; a serialization failure is re-raised as
HashComputationError. -/
def compute_sha256_hash (sha : String → List ℕ) (v : PyVal) :
    Except HashComputationError String :=
  match canonical_serialize v with
  | .error e => .error (.serialization e)
  | .ok s => .ok (hexDigest (sha s))

/-- The numeric value of a float when it has one; both zeros map to 0. -/
def floatVal : PyFloat → Option ℚ
  | .negZero => some 0
  | .finite q => some q
  | _ => none

/-- Floats the canonicalization must not distinguish: identical non-finite
markers, or finite values (including the two zeros) equal after rounding to
12 decimal places. -/
def FloatEquiv (f g : PyFloat) : Prop :=
  (f = .nan ∧ g = .nan) ∨ (f = .inf ∧ g = .inf) ∨ (f = .ninf ∧ g = .ninf) ∨
    (∃ qf qg, floatVal f = some qf ∧ floatVal g = some qg ∧
      roundTo12 qf = roundTo12 qg)

/-- Structural congruence of two inputs up to FloatEquiv at float leaves:
equal runs, -0.0 versus 0.0, and floats equal after rounding are all
instances. -/
inductive ValEquiv : PyVal → PyVal → Prop where
  | pynone : ValEquiv .pynone .pynone
  | pybool (b : Bool) : ValEquiv (.pybool b) (.pybool b)
  | pyint (z : ℤ) : ValEquiv (.pyint z) (.pyint z)
  | pyfloat (f g : PyFloat) (h : FloatEquiv f g) :
      ValEquiv (.pyfloat f) (.pyfloat g)
  | pystr (s : String) : ValEquiv (.pystr s) (.pystr s)
  | pylist (xs ys : List PyVal) (hlen : xs.length = ys.length)
      (h : ∀ (i : ℕ) (x y : PyVal), xs[i]? = some x → ys[i]? = some y →
        ValEquiv x y) :
      ValEquiv (.pylist xs) (.pylist ys)
  | pydict (kvs₁ kvs₂ : List (String × PyVal)) (hlen : kvs₁.length = kvs₂.length)
      (hkeys : ∀ (i : ℕ), (kvs₁[i]?).map Prod.fst = (kvs₂[i]?).map Prod.fst)
      (h : ∀ (i : ℕ) (k₁ k₂ : String) (x y : PyVal), kvs₁[i]? = some (k₁, x) →
        kvs₂[i]? = some (k₂, y) → ValEquiv x y) :
      ValEquiv (.pydict kvs₁) (.pydict kvs₂)
  | obj (tag : String) : ValEquiv (.obj tag) (.obj tag)

lemma roundTo12_zero : roundTo12 0 = 0 := by
  have h1 : ((0:ℚ) * 10 ^ 12) = 0 := by ring
  unfold roundTo12 roundHalfEven
  rw [h1]
  norm_num

lemma standardizeFloat_val (f : PyFloat) (q : ℚ) (h : floatVal f = some q) :
    standardizeFloat f = .jstr (formatFixed12 (roundTo12 q)) := by
  cases f with
  | negZero =>
    simp only [floatVal, Option.some.injEq] at h
    rw [standardizeFloat, ← h, roundTo12_zero]
  | finite q0 =>
    simp only [floatVal, Option.some.injEq] at h
    rw [standardizeFloat, h]
  | nan => exact Option.noConfusion h
  | inf => exact Option.noConfusion h
  | ninf => exact Option.noConfusion h

lemma standardizeFloat_congr (f g : PyFloat) (h : FloatEquiv f g) :
    standardizeFloat f = standardizeFloat g := by
  rcases h with ⟨rfl, rfl⟩ | ⟨rfl, rfl⟩ | ⟨rfl, rfl⟩ | ⟨qf, qg, hf, hg, hr⟩
  · rfl
  · rfl
  · rfl
  · rw [standardizeFloat_val f qf hf, standardizeFloat_val g qg hg, hr]

lemma standardizeList_congr (xs ys : List PyVal) (hlen : xs.length = ys.length)
    (h : ∀ (i : ℕ) (x y : PyVal), xs[i]? = some x → ys[i]? = some y →
      standardize x = standardize y) :
    standardizeList xs = standardizeList ys := by
  induction xs generalizing ys with
  | nil =>
    cases ys with
    | nil => rfl
    | cons y ys2 => exact absurd hlen (by simp)
  | cons x xs2 ih =>
    cases ys with
    | nil => exact absurd hlen (by simp)
    | cons y ys2 =>
      have h0 : standardize x = standardize y := h 0 x y (by simp) (by simp)
      have htail : standardizeList xs2 = standardizeList ys2 :=
        ih ys2 (by simpa using hlen)
          (fun i a b ha hb => h (i + 1) a b (by simpa using ha)
            (by simpa using hb))
      simp only [standardizeList, h0, htail]

lemma standardizeKVs_congr (kvs₁ kvs₂ : List (String × PyVal))
    (hlen : kvs₁.length = kvs₂.length)
    (hkeys : ∀ (i : ℕ), (kvs₁[i]?).map Prod.fst = (kvs₂[i]?).map Prod.fst)
    (h : ∀ (i : ℕ) (k₁ k₂ : String) (x y : PyVal), kvs₁[i]? = some (k₁, x) →
      kvs₂[i]? = some (k₂, y) → standardize x = standardize y) :
    standardizeKVs kvs₁ = standardizeKVs kvs₂ := by
  induction kvs₁ generalizing kvs₂ with
  | nil =>
    cases kvs₂ with
    | nil => rfl
    | cons p rest => exact absurd hlen (by simp)
  | cons p rest ih =>
    obtain ⟨k, v⟩ := p
    cases kvs₂ with
    | nil => exact absurd hlen (by simp)
    | cons p2 rest2 =>
      obtain ⟨k2, v2⟩ := p2
      have hkey0 := hkeys 0
      simp only [List.getElem?_cons_zero, Option.map_some',
        Option.some.injEq] at hkey0
      have hv : standardize v = standardize v2 := h 0 k k2 v v2 (by simp) (by simp)
      have htail : standardizeKVs rest = standardizeKVs rest2 :=
        ih rest2 (by simpa using hlen)
          (fun i => by simpa using hkeys (i + 1))
          (fun i a b x y hx hy => h (i + 1) a b x y (by simpa using hx)
            (by simpa using hy))
      rw [show k = k2 from hkey0]
      simp only [standardizeKVs, hv, htail]

lemma standardize_congr (v w : PyVal) (hvw : ValEquiv v w) :
    standardize v = standardize w := by
  induction hvw with
  | pynone => rfl
  | pybool b => rfl
  | pyint z => rfl
  | pyfloat f g h => simp only [standardize, standardizeFloat_congr f g h]
  | pystr s => rfl
  | pylist xs ys hlen h ih =>
    simp only [standardize, standardizeList_congr xs ys hlen ih]
  | pydict kvs₁ kvs₂ hlen hkeys h ih =>
    simp only [standardize, standardizeKVs_congr kvs₁ kvs₂ hlen hkeys ih]
  | obj tag => rfl

lemma hexDigest_length (bytes : List ℕ) :
    (hexDigest bytes).length = 2 * bytes.length := by
  have hlist : (bytes.foldr (fun b acc => hexByte b ++ acc) []).length
      = 2 * bytes.length := by
    induction bytes with
    | nil => rfl
    | cons b rest ih =>
      simp only [List.foldr_cons, List.length_append, ih]
      simp only [hexByte, List.length_cons, List.length_nil]
      omega
  unfold hexDigest
  exact hlist

/-- C10: compute_sha256_hash is deterministic and precision-normalizing —
for every hash function of 32-byte digests, two inputs that are equal, or
differ only by -0.0 versus 0.0, or differ only by floats equal after
rounding to 12 decimal places, receive the identical digest; every returned
digest has 64 hex characters; and an unsupported object type yields a
hash/serialization error, never a digest. -/
theorem hash_deterministic_and_normalizing (sha : String → List ℕ)
    (hsha : ∀ s, (sha s).length = 32) (v w : PyVal) (hvw : ValEquiv v w)
    (tag : String) :
    compute_sha256_hash sha v = compute_sha256_hash sha w ∧
    (∀ d, compute_sha256_hash sha v = .ok d → d.length = 64) ∧
    (∃ e, compute_sha256_hash sha (.obj tag) = .error e) := by
  have hser : canonical_serialize v = canonical_serialize w := by
    unfold canonical_serialize
    rw [standardize_congr v w hvw]
  refine ⟨?_, ?_, ?_⟩
  · unfold compute_sha256_hash
    rw [hser]
  · intro d hd
    unfold compute_sha256_hash at hd
    rcases hcs : canonical_serialize v with e | s
    · rw [hcs] at hd
      exact Except.noConfusion hd
    · rw [hcs] at hd
      simp only [Except.ok.injEq] at hd
      rw [← hd, hexDigest_length, hsha s]
  · exact ⟨.serialization (.unsupportedType tag), rfl⟩

theorem hash_deterministic_and_normalizing_witness :
    compute_sha256_hash (fun _ => List.replicate 32 0) (.pyfloat .negZero)
      = compute_sha256_hash (fun _ => List.replicate 32 0)
          (.pyfloat (.finite 0)) ∧
    (∀ d, compute_sha256_hash (fun _ => List.replicate 32 0)
      (.pyfloat .negZero) = .ok d → d.length = 64) ∧
    (∃ e, compute_sha256_hash (fun _ => List.replicate 32 0)
      (.obj "opaque object") = .error e) :=
  hash_deterministic_and_normalizing (fun _ => List.replicate 32 0)
    (fun _ => by simp) (.pyfloat .negZero) (.pyfloat (.finite 0))
    (ValEquiv.pyfloat _ _ (Or.inr (Or.inr (Or.inr ⟨0, 0, rfl, rfl, rfl⟩))))
    "opaque object"

end Hashing
